import Mathlib

/-!
Verification of the pheval.phen2gene adapter.

Shallow embedding of the two source files:
- `src/pheval_phen2gene/post_process/post_process_results_format.py`
  (result standardization: extraction, identifier resolution, ranking);
- `src/pheval_phen2gene/run/run.py`
  (batch preparation and the local/docker execution dispatcher).

Python floats carrying scores are modelled as exact rationals (`ℚ`);
pandas rows are modelled as records whose `Score` cell is either numeric or a
non-numeric string; Python exceptions (`TypeError` on `round` of a
non-numeric cell, `IndexError` on `[0]` of an empty list) are modelled as
`Except` errors named after the spec's error taxonomy.  The external
`GeneIdentifierUpdater.find_identifier` lookup is modelled as an abstract
function `String → String`.
-/

namespace Phen2Gene

/-- Python's built-in `round(x, 4)` uses round-half-to-even ("banker's
rounding"); `roundHalfEven q` is the integer nearest to `q`, with ties going
to the even integer. -/
def roundHalfEven (q : ℚ) : ℤ :=
  if q - ⌊q⌋ < 1/2 then ⌊q⌋
  else if 1/2 < q - ⌊q⌋ then ⌊q⌋ + 1
  else if ⌊q⌋ % 2 = 0 then ⌊q⌋ else ⌊q⌋ + 1

/-- `round(x, 4)` from `_find_relevant_score`: round to 4 decimal places. -/
def round4 (q : ℚ) : ℚ := (roundHalfEven (q * 10000) : ℚ) / 10000

/-- A cell of the `Score` column of a Phen2Gene tsv table: either a numeric
value or a non-numeric string (pandas parses unparseable cells as strings,
and `round` then raises `TypeError`). -/
inductive ScoreCell where
  | num (q : ℚ)
  | str (s : String)
deriving DecidableEq

/-- One row of a Phen2Gene tsv result table, restricted to the two required
columns `Gene` and `Score` (all other columns are never read by the code). -/
structure Phen2GeneRow where
  Gene : String
  Score : ScoreCell
deriving DecidableEq

/-- `PhEvalGeneResult` from the pheval harness: a normalized
(symbol, identifier, score) record. -/
structure PhEvalGeneResult where
  gene_symbol : String
  gene_identifier : String
  score : ℚ
deriving DecidableEq

/-- `RankedPhEvalGeneResult`: a normalized record plus its assigned rank. -/
structure RankedPhEvalGeneResult where
  gene_symbol : String
  gene_identifier : String
  score : ℚ
  rank : ℕ
deriving DecidableEq

/-- The spec's error taxonomy for the failures the embedded code can raise:
`MalformedResultRow` is the `TypeError` from `round` on a non-numeric score,
`MissingPhenopacketDirectory` and `BatchNotFound` are the `IndexError`s from
`[0]` on an empty filtered listing. -/
inductive Phen2GeneError where
  | MalformedResultRow
  | MissingPhenopacketDirectory
  | BatchNotFound
deriving DecidableEq

/-- `_find_gene_symbol`: `return result_entry["Gene"]`. -/
def find_gene_symbol (row : Phen2GeneRow) : String := row.Gene

/-- `_find_ensembl_identifier`:
`return self.gene_identifier_updator.find_identifier(result_entry["Gene"])`,
with the external updater modelled as an abstract lookup function. -/
def find_ensembl_identifier (updater : String → String) (row : Phen2GeneRow) : String :=
  updater row.Gene

/-- `_find_relevant_score`: `return round(result_entry["Score"], 4)`.
On a non-numeric cell `round` raises (`MalformedResultRow` in the spec's
taxonomy). -/
def find_relevant_score (row : Phen2GeneRow) : Except Phen2GeneError ℚ :=
  match row.Score with
  | ScoreCell.num q => Except.ok (round4 q)
  | ScoreCell.str _ => Except.error Phen2GeneError.MalformedResultRow

/-- `extract_pheval_gene_requirements`: iterate over the table's rows in
order, appending one `PhEvalGeneResult` per row; an exception raised on any
row propagates, so no partial list is ever returned. -/
def extract_pheval_gene_requirements (updater : String → String) :
    List Phen2GeneRow → Except Phen2GeneError (List PhEvalGeneResult)
  | [] => Except.ok []
  | row :: rest =>
    match find_relevant_score row with
    | Except.error e => Except.error e
    | Except.ok s =>
      match extract_pheval_gene_requirements updater rest with
      | Except.error e => Except.error e
      | Except.ok tail =>
        Except.ok ({ gene_symbol := find_gene_symbol row,
                     gene_identifier := find_ensembl_identifier updater row,
                     score := s } :: tail)

/-- Sort key for `sort_order="ascending"`: lower score first. -/
def scoreAsc (a b : PhEvalGeneResult) : Prop := a.score ≤ b.score

/-- Sort key for `sort_order="descending"`: higher score first. -/
def scoreDesc (a b : PhEvalGeneResult) : Prop := b.score ≤ a.score

instance : DecidableRel scoreAsc := fun a b => inferInstanceAs (Decidable (a.score ≤ b.score))

instance : DecidableRel scoreDesc := fun a b => inferInstanceAs (Decidable (b.score ≤ a.score))

instance : IsTotal PhEvalGeneResult scoreAsc := ⟨fun a b => le_total a.score b.score⟩

instance : IsTrans PhEvalGeneResult scoreAsc := ⟨fun _ _ _ hab hbc => le_trans hab hbc⟩

instance : IsTotal PhEvalGeneResult scoreDesc := ⟨fun a b => le_total b.score a.score⟩

instance : IsTrans PhEvalGeneResult scoreDesc := ⟨fun _ _ _ hab hbc => le_trans hbc hab⟩

/-- Modelled from the spec: the stable sort step of `create_pheval_result`
(the pheval harness function imported by `post_process_results_format.py`;
its body is not under `src/`).  "stable-sort by score according to sort
order". -/
def sortResults (results : List PhEvalGeneResult) (sort_order : String) :
    List PhEvalGeneResult :=
  if sort_order = "ascending" then List.insertionSort scoreAsc results
  else List.insertionSort scoreDesc results

/-- Modelled from the spec: the rank-assignment step of
`create_pheval_result`.  "for each subsequent element assign the previous
rank unless its score differs from the previous element's score", in which
case the rank "resumes at previous_rank + 1". -/
def assignRanksAux (prevScore : ℚ) (prevRank : ℕ) :
    List PhEvalGeneResult → List RankedPhEvalGeneResult
  | [] => []
  | r :: rest =>
    let newRank := if r.score = prevScore then prevRank else prevRank + 1
    { gene_symbol := r.gene_symbol, gene_identifier := r.gene_identifier,
      score := r.score, rank := newRank } :: assignRanksAux r.score newRank rest

/-- Modelled from the spec: `create_pheval_result` from the pheval harness
(imported, not under `src/`).  "stable-sort by score according to sort
order; assign rank 1 to the first element, and for each subsequent element
assign the previous rank unless its score differs from the previous
element's score". -/
def create_pheval_result (results : List PhEvalGeneResult) (sort_order : String) :
    List RankedPhEvalGeneResult :=
  match sortResults results sort_order with
  | [] => []
  | first :: rest =>
    { gene_symbol := first.gene_symbol, gene_identifier := first.gene_identifier,
      score := first.score, rank := 1 } :: assignRanksAux first.score 1 rest

/-- `create_pheval_gene_result_from_phen2gene`: extract the normalized
records from the tsv rows, then hand them to the harness's
`create_pheval_result`. -/
def create_pheval_gene_result_from_phen2gene (rows : List Phen2GeneRow)
    (updater : String → String) (sort_order : String) :
    Except Phen2GeneError (List RankedPhEvalGeneResult) :=
  match extract_pheval_gene_requirements updater rows with
  | Except.error e => Except.error e
  | Except.ok pheval_gene_result =>
    Except.ok (create_pheval_result pheval_gene_result sort_order)

/-- Python's substring test `pat in s`, used as
`"phenopacket" in str(directory)` in `prepare_phen2gene_commands`. -/
def strContains (s pat : String) : Bool := decide (pat.data <:+: s.data)

/-- Python's `str.startswith`, used as
`file.name.startswith(Path(testdata_dir).name)` (local mode) and
`file.name.startswith(os.path.basename(testdata_dir))` (docker mode). -/
def strStartsWith (s p : String) : Bool := List.isPrefixOf p.data s.data

/-- Length of the longest common prefix of two component lists (the
`os.path.commonprefix` step inside `os.path.relpath`). -/
def commonPrefixLen : List String → List String → ℕ
  | a :: as, b :: bs => if a = b then commonPrefixLen as bs + 1 else 0
  | _, _ => 0

/-- `os.path.relpath(path, start)` (Python stdlib, posix flavour) over
absolute paths represented as component lists: strip the common prefix, then
one `".."` per remaining `start` component followed by the remaining `path`
components.  In `prepare_phen2gene_commands` it is invoked as
`os.path.relpath(Path(raw_results_dir))`, whose `start` argument defaults to
the current working directory. -/
def relpath (pathComponents startComponents : List String) : List String :=
  let i := commonPrefixLen pathComponents startComponents
  List.replicate (startComponents.length - i) ".." ++ pathComponents.drop i

/-- Interpret a relative path from a base directory: each `".."` component
pops one component off the base, every other component is appended. -/
def resolvePath (base rel : List String) : List String :=
  rel.foldl (fun acc c => if c = ".." then acc.dropLast else acc ++ [c]) base

/-- What `prepare_phen2gene_commands` hands to `prepare_commands`: the
phenopacket directory it located under the test-data directory and the
results directory path it embeds in the prepared commands. -/
structure PrepareTrace where
  phenopacket_dir : String
  results_dir : List String
deriving DecidableEq

/-- `prepare_phen2gene_commands`: pick the first entry of the test-data
directory listing whose name contains `"phenopacket"` (an empty filtered
list raises `IndexError` on `[0]`, `MissingPhenopacketDirectory` in the
spec's taxonomy, before `prepare_commands` is ever called), then call
`prepare_commands` with `results_dir = os.path.relpath(raw_results_dir)`
(relative to the current working directory; the stray `start=os.getcwd()`
keyword is consumed and discarded by the `Path(...)` constructor). -/
def prepare_phen2gene_commands (testdata_listing : List String)
    (raw_results_dir cwd : List String) : Except Phen2GeneError PrepareTrace :=
  match testdata_listing.filter (fun d => strContains d "phenopacket") with
  | [] => Except.error Phen2GeneError.MissingPhenopacketDirectory
  | d :: _ =>
    Except.ok { phenopacket_dir := d, results_dir := relpath raw_results_dir cwd }

/-- The batch-file selection shared verbatim by `run_phen2gene_local` and
`run_phen2gene_docker`:
`[file for file in all_files(tool_input_commands_dir) if
file.name.startswith(<basename of testdata_dir>)][0]`; an empty filtered
list raises `IndexError` (`BatchNotFound` in the spec's taxonomy). -/
def select_batch_file (files : List String) (testdataName : String) :
    Except Phen2GeneError String :=
  match files.filter (fun f => strStartsWith f testdataName) with
  | [] => Except.error Phen2GeneError.BatchNotFound
  | f :: _ => Except.ok f

/-- What `run_phen2gene_local` did: which batch file it executed with
`bash`, and the return codes of its two `subprocess.run` calls — both calls
are made without `check=True`, so both return codes are received and
discarded. -/
structure LocalTrace where
  batch_file : String
  activation_returncode : ℤ
  batch_returncode : ℤ
deriving DecidableEq

/-- `run_phen2gene_local`: select the batch file, run
`subprocess.run(["activate", "phen2gene"])` (return code discarded, no
`check=True`), then run `subprocess.run(["bash", batch_file])` (return code
likewise discarded).  The subprocesses' exit statuses are inputs of the
model; neither aborts the function. -/
def run_phen2gene_local (files : List String) (testdataName : String)
    (activation_returncode batch_returncode : ℤ) :
    Except Phen2GeneError LocalTrace :=
  match select_batch_file files testdataName with
  | Except.error e => Except.error e
  | Except.ok batch_file =>
    Except.ok { batch_file := batch_file,
                activation_returncode := activation_returncode,
                batch_returncode := batch_returncode }

/-- One observable action of the docker dispatcher: starting a detached
container run for a command, or streaming a running container's logs. -/
inductive DockerAction where
  | runContainer (cmd : String)
  | streamLogs (cmd : String)
deriving DecidableEq

/-- What `run_phen2gene_docker` did: which batch file it read, and the
container actions it performed, in order. -/
structure DockerTrace where
  batch_file : String
  actions : List DockerAction
deriving DecidableEq

/-- The `for command in batch_commands:` loop of `run_phen2gene_docker`:
`client.containers.run(..., command, detach=True)`, then stream the
container's logs, then the unconditional `break` ends the loop after its
first iteration. -/
def run_docker_batch : List String → List DockerAction
  | [] => []
  | command :: _ => [DockerAction.runContainer command, DockerAction.streamLogs command]

/-- `run_phen2gene_docker`: select the batch file (same selection as local
mode), read its commands (`read_docker_batch`, modelled by the abstract
`contents` map), build the two volume mounts, then run the
`for`/`break` loop over the commands. -/
def run_phen2gene_docker (files : List String) (testdataName : String)
    (contents : String → List String) : Except Phen2GeneError DockerTrace :=
  match select_batch_file files testdataName with
  | Except.error e => Except.error e
  | Except.ok batch_file =>
    Except.ok { batch_file := batch_file, actions := run_docker_batch (contents batch_file) }

/-- One dispatched execution recorded by the top-level `run_phen2gene`. -/
inductive DispatchTrace where
  | dockerDispatch (t : DockerTrace)
  | localDispatch (t : LocalTrace)
deriving DecidableEq

/-- `run_phen2gene`: `if config.run.environment == "docker": ...` followed by
`if config.run.environment == "local": ...`; any other environment value
matches neither `if` and the function returns normally having dispatched
nothing. -/
def run_phen2gene (config_environment : String) (files : List String)
    (testdataName : String) (contents : String → List String)
    (activation_returncode batch_returncode : ℤ) :
    Except Phen2GeneError (List DispatchTrace) :=
  match (if config_environment = "docker" then
           (run_phen2gene_docker files testdataName contents).map
             (fun t => [DispatchTrace.dockerDispatch t])
         else Except.ok []) with
  | Except.error e => Except.error e
  | Except.ok dockerPart =>
    match (if config_environment = "local" then
             (run_phen2gene_local files testdataName
                activation_returncode batch_returncode).map
               (fun t => [DispatchTrace.localDispatch t])
           else Except.ok []) with
    | Except.error e => Except.error e
    | Except.ok localPart => Except.ok (dockerPart ++ localPart)

/-! Helper lemmas. -/

/-- A successful batch-file selection returns a listed file whose name
starts with the required corpus prefix. -/
lemma select_batch_file_ok {files : List String} {testdataName f : String}
    (h : select_batch_file files testdataName = Except.ok f) :
    f ∈ files ∧ strStartsWith f testdataName = true := by
  unfold select_batch_file at h
  cases hfl : files.filter (fun x => strStartsWith x testdataName) with
  | nil => rw [hfl] at h; cases h
  | cons a l =>
    rw [hfl] at h
    injection h with h
    subst h
    have ha : a ∈ files.filter (fun x => strStartsWith x testdataName) := by
      rw [hfl]; exact List.mem_cons_self a l
    exact List.mem_filter.mp ha

/-- Whether a `Score` cell is numeric. -/
def scoreCellIsNumeric : ScoreCell → Bool
  | ScoreCell.num _ => true
  | ScoreCell.str _ => false

/-- The numeric value of a `Score` cell (defaulting to 0 on the non-numeric
case, which the theorems using it exclude by hypothesis). -/
def scoreCellValue : ScoreCell → ℚ
  | ScoreCell.num q => q
  | ScoreCell.str _ => 0

/-- Rounding an integer changes nothing. -/
lemma roundHalfEven_intCast (k : ℤ) : roundHalfEven (k : ℚ) = k := by
  unfold roundHalfEven
  rw [Int.floor_intCast]
  norm_num

/-- `round4` is idempotent: a value already rounded to 4 decimal places is
left unchanged by a second rounding. -/
lemma round4_round4 (q : ℚ) : round4 (round4 q) = round4 q := by
  unfold round4
  rw [div_mul_cancel₀ _ (by norm_num : (10000:ℚ) ≠ 0), roundHalfEven_intCast]

/-- The common prefix is never longer than the left list. -/
lemma commonPrefixLen_le_left : ∀ (as bs : List String), commonPrefixLen as bs ≤ as.length
  | [], _ => by simp [commonPrefixLen]
  | _ :: _, [] => by simp [commonPrefixLen]
  | a :: as, b :: bs => by
    unfold commonPrefixLen
    by_cases hab : a = b
    · simp only [hab, if_true, List.length_cons]
      exact Nat.succ_le_succ (commonPrefixLen_le_left as bs)
    · simp [hab]

/-- The common prefix is never longer than the right list. -/
lemma commonPrefixLen_le_right : ∀ (as bs : List String), commonPrefixLen as bs ≤ bs.length
  | [], _ => by simp [commonPrefixLen]
  | _ :: _, [] => by simp [commonPrefixLen]
  | a :: as, b :: bs => by
    unfold commonPrefixLen
    by_cases hab : a = b
    · simp only [hab, if_true, List.length_cons]
      exact Nat.succ_le_succ (commonPrefixLen_le_right as bs)
    · simp [hab]

/-- Up to the common prefix length, the two lists agree. -/
lemma commonPrefixLen_take : ∀ (as bs : List String),
    as.take (commonPrefixLen as bs) = bs.take (commonPrefixLen as bs)
  | [], _ => by simp [commonPrefixLen]
  | _ :: _, [] => by simp [commonPrefixLen]
  | a :: as, b :: bs => by
    unfold commonPrefixLen
    by_cases hab : a = b
    · simp only [hab, if_true, List.take_succ_cons]
      rw [commonPrefixLen_take as bs]
    · simp [hab]

/-- Resolving a run of `".."` components pops that many components off the
base path. -/
lemma resolvePath_replicate : ∀ (k : ℕ) (base : List String),
    resolvePath base (List.replicate k "..") = base.take (base.length - k)
  | 0, base => by simp [resolvePath]
  | k + 1, base => by
    unfold resolvePath
    rw [List.replicate_succ, List.foldl_cons, if_pos rfl]
    have ih := resolvePath_replicate k base.dropLast
    unfold resolvePath at ih
    rw [ih, List.dropLast_eq_take, List.take_take, List.length_take]
    congr 1
    omega

/-- Resolving components none of which is `".."` appends them. -/
lemma resolvePath_no_dotdot : ∀ (l base : List String),
    (∀ c ∈ l, c ≠ "..") → resolvePath base l = base ++ l
  | [], base => by simp [resolvePath]
  | c :: l, base => by
    intro h
    unfold resolvePath
    rw [List.foldl_cons, if_neg (h c (List.mem_cons_self c l))]
    have ih := resolvePath_no_dotdot l (base ++ [c])
      (fun x hx => h x (List.mem_cons_of_mem c hx))
    unfold resolvePath at ih
    rw [ih, List.append_assoc]
    rfl

/-- Correctness of the embedded relative path: interpreted from the current
working directory, `relpath raw cwd` leads back to `raw` (for component
paths free of `".."`). -/
lemma relpath_resolve (raw cwd : List String) (hraw : ∀ c ∈ raw, c ≠ "..") :
    resolvePath cwd (relpath raw cwd) = raw := by
  unfold relpath resolvePath
  rw [List.foldl_append]
  have h1 : List.foldl (fun acc c => if c = ".." then acc.dropLast else acc ++ [c]) cwd
      (List.replicate (cwd.length - commonPrefixLen raw cwd) "..") =
      cwd.take (commonPrefixLen raw cwd) := by
    have := resolvePath_replicate (cwd.length - commonPrefixLen raw cwd) cwd
    unfold resolvePath at this
    rw [this]
    congr 1
    have := commonPrefixLen_le_right raw cwd
    omega
  rw [h1]
  have h2 : ∀ c ∈ raw.drop (commonPrefixLen raw cwd), c ≠ ".." :=
    fun c hc => hraw c (List.drop_subset _ raw hc)
  have h3 := resolvePath_no_dotdot (raw.drop (commonPrefixLen raw cwd))
    (cwd.take (commonPrefixLen raw cwd)) h2
  unfold resolvePath at h3
  rw [h3, ← commonPrefixLen_take raw cwd, List.take_append_drop]

/-- The competition-ranking step relation between consecutive ranked
records: an equal score keeps the rank, a different score increments it. -/
def rankRel (a b : RankedPhEvalGeneResult) : Prop :=
  (b.score = a.score → b.rank = a.rank) ∧ (b.score ≠ a.score → b.rank = a.rank + 1)

/-- Rank assignment preserves the sequence of scores. -/
lemma assignRanksAux_map_score : ∀ (l : List PhEvalGeneResult) (s : ℚ) (k : ℕ),
    (assignRanksAux s k l).map RankedPhEvalGeneResult.score =
      l.map PhEvalGeneResult.score
  | [], _, _ => rfl
  | r :: rest, s, k => by
    by_cases hsc : r.score = s
    · simp only [assignRanksAux, hsc, if_true, List.map_cons]
      rw [assignRanksAux_map_score rest s k]
    · simp only [assignRanksAux, hsc, if_false, List.map_cons]
      rw [assignRanksAux_map_score rest r.score (k + 1)]

/-- The ranked list headed by any record `a` and continued by
`assignRanksAux a.score a.rank` satisfies the competition-ranking step
relation between every pair of consecutive records. -/
lemma assignRanksAux_chain : ∀ (l : List PhEvalGeneResult) (a : RankedPhEvalGeneResult),
    List.Chain' rankRel (a :: assignRanksAux a.score a.rank l)
  | [], _ => List.chain'_singleton _
  | r :: rest, a => by
    by_cases hsc : r.score = a.score
    · have hstep : assignRanksAux a.score a.rank (r :: rest) =
          { gene_symbol := r.gene_symbol, gene_identifier := r.gene_identifier,
            score := r.score, rank := a.rank } :: assignRanksAux r.score a.rank rest := by
        simp [assignRanksAux, hsc]
      rw [hstep, List.chain'_cons]
      exact ⟨⟨fun _ => rfl, fun hne => absurd hsc hne⟩,
        assignRanksAux_chain rest
          { gene_symbol := r.gene_symbol, gene_identifier := r.gene_identifier,
            score := r.score, rank := a.rank }⟩
    · have hstep : assignRanksAux a.score a.rank (r :: rest) =
          { gene_symbol := r.gene_symbol, gene_identifier := r.gene_identifier,
            score := r.score, rank := a.rank + 1 } :: assignRanksAux r.score (a.rank + 1) rest := by
        simp [assignRanksAux, hsc]
      rw [hstep, List.chain'_cons]
      exact ⟨⟨fun heq => absurd heq hsc, fun _ => rfl⟩,
        assignRanksAux_chain rest
          { gene_symbol := r.gene_symbol, gene_identifier := r.gene_identifier,
            score := r.score, rank := a.rank + 1 }⟩

/-- Every rank assigned by `assignRanksAux` starting at `k` is at least `k`. -/
lemma assignRanksAux_rank_ge : ∀ (l : List PhEvalGeneResult) (s : ℚ) (k : ℕ)
    (r : RankedPhEvalGeneResult), r ∈ assignRanksAux s k l → k ≤ r.rank
  | [], _, _, _ => by intro h; simp [assignRanksAux] at h
  | x :: rest, s, k, r => by
    intro h
    by_cases hsc : x.score = s
    · simp only [assignRanksAux, hsc, if_true, List.mem_cons] at h
      rcases h with h | h
      · rw [h]
      · exact assignRanksAux_rank_ge rest s k r h
    · simp only [assignRanksAux, hsc, if_false, List.mem_cons] at h
      rcases h with h | h
      · rw [h]; exact Nat.le_succ k
      · exact Nat.le_of_succ_le (assignRanksAux_rank_ge rest x.score (k + 1) r h)

/-- A list of naturals starting at `k` in which every step either repeats
the previous value or adds 1 contains every value between `k` and any of
its members. -/
lemma staircase : ∀ (l : List ℕ) (k : ℕ),
    List.Chain' (fun a b => b = a ∨ b = a + 1) (k :: l) →
    ∀ r ∈ k :: l, ∀ j, k ≤ j → j ≤ r → j ∈ k :: l
  | [], k => by
    intro _ r hr j hkj hjr
    simp only [List.mem_singleton] at hr
    subst hr
    simp only [List.mem_singleton]
    omega
  | k2 :: l, k => by
    intro hch r hr j hkj hjr
    rw [List.chain'_cons] at hch
    obtain ⟨hstep, hch2⟩ := hch
    by_cases hjk : j = k
    · simp [hjk]
    · have hk2j : k2 ≤ j := by rcases hstep with h | h <;> omega
      have hr2 : r ∈ k2 :: l := by
        rcases List.mem_cons.mp hr with h | h
        · exact absurd (by omega : j = k) hjk
        · exact h
      exact List.mem_cons.mpr (Or.inr (staircase l k2 hch2 r hr2 j hk2j hjr))

/-- The full ranking contract of the spec-modelled `create_pheval_result`
on a nonempty input, for either sort order: the output starts with a
rank-1 record that is best-scoring for the configured order, consecutive
records obey competition ranking, and the assigned ranks are contiguous
positive integers. -/
lemma create_pheval_result_spec (results : List PhEvalGeneResult) (sort_order : String)
    (hne : results ≠ []) :
    ∃ first restR,
      create_pheval_result results sort_order = first :: restR ∧
      first.rank = 1 ∧
      (∀ r ∈ first :: restR,
        (sort_order = "ascending" → first.score ≤ r.score) ∧
        (sort_order = "descending" → r.score ≤ first.score)) ∧
      List.Chain' rankRel (first :: restR) ∧
      (∀ r ∈ first :: restR, 1 ≤ r.rank) ∧
      (∀ r ∈ first :: restR, ∀ j, 1 ≤ j → j ≤ r.rank →
        ∃ r2 ∈ first :: restR, r2.rank = j) := by
  have hslen : (sortResults results sort_order).length = results.length := by
    unfold sortResults
    split
    · exact (List.perm_insertionSort scoreAsc results).length_eq
    · exact (List.perm_insertionSort scoreDesc results).length_eq
  have hsne : sortResults results sort_order ≠ [] := by
    intro h0
    apply hne
    have := congrArg List.length h0
    rw [hslen] at this
    exact List.eq_nil_of_length_eq_zero this
  cases hs0 : sortResults results sort_order with
  | nil => exact absurd hs0 hsne
  | cons first0 rest0 =>
    have hbest : ∀ g ∈ first0 :: rest0,
        (sort_order = "ascending" → first0.score ≤ g.score) ∧
        (sort_order = "descending" → g.score ≤ first0.score) := by
      intro g hg
      rcases List.mem_cons.mp hg with hg0 | hg0
      · subst hg0; exact ⟨fun _ => le_refl _, fun _ => le_refl _⟩
      constructor
      · intro hasc
        have hsort : List.Sorted scoreAsc (first0 :: rest0) := by
          rw [← hs0]
          unfold sortResults
          rw [if_pos hasc]
          exact List.sorted_insertionSort scoreAsc results
        exact List.rel_of_sorted_cons hsort g hg0
      · intro hdesc
        have hsort : List.Sorted scoreDesc (first0 :: rest0) := by
          rw [← hs0]
          unfold sortResults
          rw [if_neg (by rw [hdesc]; decide)]
          exact List.sorted_insertionSort scoreDesc results
        exact List.rel_of_sorted_cons hsort g hg0
    set head : RankedPhEvalGeneResult :=
      { gene_symbol := first0.gene_symbol, gene_identifier := first0.gene_identifier,
        score := first0.score, rank := 1 } with hhead
    set tail : List RankedPhEvalGeneResult := assignRanksAux first0.score 1 rest0 with htail
    have hcr : create_pheval_result results sort_order = head :: tail := by
      unfold create_pheval_result
      rw [hs0]
    have hscores : (head :: tail).map RankedPhEvalGeneResult.score =
        (first0 :: rest0).map PhEvalGeneResult.score := by
      rw [List.map_cons, List.map_cons, htail, assignRanksAux_map_score]
    have hmemscore : ∀ r ∈ head :: tail, ∃ g ∈ first0 :: rest0,
        g.score = r.score := by
      intro r hrm
      have : r.score ∈ (head :: tail).map RankedPhEvalGeneResult.score :=
        List.mem_map_of_mem RankedPhEvalGeneResult.score hrm
      rw [hscores] at this
      rcases List.mem_map.mp this with ⟨g, hgm, hgs⟩
      exact ⟨g, hgm, hgs⟩
    refine ⟨head, tail, hcr, rfl, ?_, ?_, ?_, ?_⟩
    · intro r hrm
      rcases hmemscore r hrm with ⟨g, hgm, hgs⟩
      have := hbest g hgm
      constructor
      · intro hasc
        have : first0.score ≤ g.score := this.1 hasc
        rw [hgs] at this
        exact this
      · intro hdesc
        have : g.score ≤ first0.score := this.2 hdesc
        rw [hgs] at this
        exact this
    · have := assignRanksAux_chain rest0 head
      exact this
    · intro r hrm
      rcases List.mem_cons.mp hrm with h | h
      · rw [h]
      · exact assignRanksAux_rank_ge rest0 first0.score 1 r h
    · intro r hrm j hj1 hjr
      have hchain : List.Chain' rankRel (head :: tail) := assignRanksAux_chain rest0 head
      have hchainN : List.Chain' (fun a b : ℕ => b = a ∨ b = a + 1)
          ((head :: tail).map RankedPhEvalGeneResult.rank) := by
        rw [List.chain'_map]
        refine hchain.imp ?_
        intro a b hab
        by_cases hs : b.score = a.score
        · exact Or.inl (hab.1 hs)
        · exact Or.inr (hab.2 hs)
      have hmapeq : (head :: tail).map RankedPhEvalGeneResult.rank =
          1 :: tail.map RankedPhEvalGeneResult.rank := rfl
      rw [hmapeq] at hchainN
      have hrrank : r.rank ∈ 1 :: tail.map RankedPhEvalGeneResult.rank := by
        rw [← hmapeq]
        exact List.mem_map_of_mem RankedPhEvalGeneResult.rank hrm
      have hjmem : j ∈ 1 :: tail.map RankedPhEvalGeneResult.rank :=
        staircase (tail.map RankedPhEvalGeneResult.rank) 1 hchainN r.rank hrrank j hj1 hjr
      rw [← hmapeq] at hjmem
      rcases List.mem_map.mp hjmem with ⟨r2, hr2m, hr2⟩
      exact ⟨r2, hr2m, hr2⟩

/-! Claim theorems. -/

/-- C1: on any table whose extraction succeeds with a nonempty result and
any sort order in ascending/descending, the ranked sequence produced by
`create_pheval_gene_result_from_phen2gene` starts with a rank-1 record that
is best-scoring for the configured order; records with equal scores share a
rank and a record whose score differs from its predecessor's gets the
predecessor's rank plus one (never its positional index plus one), so the
assigned ranks are contiguous positive integers. -/
theorem claim_C1_competition_ranking (rows : List Phen2GeneRow)
    (updater : String → String) (sort_order : String)
    (ranked : List RankedPhEvalGeneResult)
    (hrun : create_pheval_gene_result_from_phen2gene rows updater sort_order =
      Except.ok ranked)
    (hne : ranked ≠ [])
    (hso : sort_order = "ascending" ∨ sort_order = "descending") :
    ∃ first restR,
      ranked = first :: restR ∧
      first.rank = 1 ∧
      (∀ r ∈ first :: restR,
        (sort_order = "ascending" → first.score ≤ r.score) ∧
        (sort_order = "descending" → r.score ≤ first.score)) ∧
      List.Chain' rankRel (first :: restR) ∧
      (∀ r ∈ first :: restR, 1 ≤ r.rank) ∧
      (∀ r ∈ first :: restR, ∀ j, 1 ≤ j → j ≤ r.rank →
        ∃ r2 ∈ first :: restR, r2.rank = j) := by
  unfold create_pheval_gene_result_from_phen2gene at hrun
  cases hex : extract_pheval_gene_requirements updater rows with
  | error e => rw [hex] at hrun; cases hrun
  | ok results =>
    rw [hex] at hrun
    injection hrun with hrun
    have hresne : results ≠ [] := by
      intro h0
      apply hne
      rw [← hrun, h0]
      unfold create_pheval_result sortResults
      simp [List.insertionSort]
    obtain ⟨first, restR, hcr, hprops⟩ := create_pheval_result_spec results sort_order hresne
    exact ⟨first, restR, by rw [← hrun, hcr], hprops⟩

/-- Witness for C1 at the spec's example table: rows BRCA1 0.9123456,
TP53 0.9123456, EGFR 0.5, sort order descending, giving ranks 1, 1, 2 with
scores rounded to 0.9123 and 0.5. -/
theorem claim_C1_witness :
    ∃ first restR,
      ([{ gene_symbol := "BRCA1", gene_identifier := "ENSG0",
          score := 9123/10000, rank := 1 },
        { gene_symbol := "TP53", gene_identifier := "ENSG0",
          score := 9123/10000, rank := 1 },
        { gene_symbol := "EGFR", gene_identifier := "ENSG0",
          score := 1/2, rank := 2 }] : List RankedPhEvalGeneResult) = first :: restR ∧
      first.rank = 1 ∧
      (∀ r ∈ first :: restR,
        (("descending" : String) = "ascending" → first.score ≤ r.score) ∧
        (("descending" : String) = "descending" → r.score ≤ first.score)) ∧
      List.Chain' rankRel (first :: restR) ∧
      (∀ r ∈ first :: restR, 1 ≤ r.rank) ∧
      (∀ r ∈ first :: restR, ∀ j, 1 ≤ j → j ≤ r.rank →
        ∃ r2 ∈ first :: restR, r2.rank = j) :=
  claim_C1_competition_ranking
    [{ Gene := "BRCA1", Score := ScoreCell.num 0.9123456 },
     { Gene := "TP53", Score := ScoreCell.num 0.9123456 },
     { Gene := "EGFR", Score := ScoreCell.num 0.5 }]
    (fun _ => "ENSG0") "descending"
    [{ gene_symbol := "BRCA1", gene_identifier := "ENSG0",
       score := 9123/10000, rank := 1 },
     { gene_symbol := "TP53", gene_identifier := "ENSG0",
       score := 9123/10000, rank := 1 },
     { gene_symbol := "EGFR", gene_identifier := "ENSG0",
       score := 1/2, rank := 2 }]
    (by norm_num [create_pheval_gene_result_from_phen2gene,
      extract_pheval_gene_requirements, find_relevant_score, find_gene_symbol,
      find_ensembl_identifier, round4, roundHalfEven, create_pheval_result,
      sortResults, List.insertionSort, List.orderedInsert, scoreAsc, scoreDesc,
      assignRanksAux, show ("descending":String) ≠ "ascending" by decide])
    (by simp)
    (Or.inr rfl)

/-- C2: for every batch file containing more than one command, the
container-mode dispatcher `run_phen2gene_docker` starts a container run and
streams its logs only for the first command of the batch and then stops
(the loop body ends in an unconditional break), executing none of the
subsequent commands. -/
theorem claim_C2_docker_first_command_only (files : List String)
    (testdataName : String) (contents : String → List String)
    (bf c : String) (rest : List String)
    (hsel : select_batch_file files testdataName = Except.ok bf)
    (hc : contents bf = c :: rest) (hrest : rest ≠ []) :
    run_phen2gene_docker files testdataName contents =
      Except.ok { batch_file := bf,
                  actions := [DockerAction.runContainer c, DockerAction.streamLogs c] } := by
  simp only [run_phen2gene_docker, hsel, hc, run_docker_batch]

/-- Witness for C2 at a two-command batch. -/
theorem claim_C2_witness :
    run_phen2gene_docker ["corpus.sh"] "corpus"
        (fun _ => ["cmd1", "cmd2"]) =
      Except.ok { batch_file := "corpus.sh",
                  actions := [DockerAction.runContainer "cmd1",
                              DockerAction.streamLogs "cmd1"] } :=
  claim_C2_docker_first_command_only ["corpus.sh"] "corpus"
    (fun _ => ["cmd1", "cmd2"]) "corpus.sh" "cmd1" ["cmd2"]
    rfl rfl (by decide)

/-- C3: a result table containing at least one row with a non-numeric
`Score` cell makes `extract_pheval_gene_requirements` fail with
`MalformedResultRow` for the whole table; being an `Except.error`, no
partial list of normalized results is returned. -/
theorem claim_C3_malformed_row_fails_extraction (updater : String → String)
    (rows : List Phen2GeneRow)
    (h : ∃ row ∈ rows, scoreCellIsNumeric row.Score = false) :
    extract_pheval_gene_requirements updater rows =
      Except.error Phen2GeneError.MalformedResultRow := by
  induction rows with
  | nil => simp at h
  | cons row rest ih =>
    obtain ⟨r, hr, hbad⟩ := h
    unfold extract_pheval_gene_requirements
    cases hS : row.Score with
    | str s => simp [find_relevant_score, hS]
    | num q =>
      rcases List.mem_cons.mp hr with heq | hmem
      · subst heq
        rw [hS] at hbad
        simp [scoreCellIsNumeric] at hbad
      · have htail : extract_pheval_gene_requirements updater rest =
            Except.error Phen2GeneError.MalformedResultRow := ih ⟨r, hmem, hbad⟩
        simp [find_relevant_score, hS, htail]

/-- Witness for C3: a table whose second row has a non-numeric score. -/
theorem claim_C3_witness :
    extract_pheval_gene_requirements (fun _ => "ENSG1")
        [{ Gene := "BRCA1", Score := ScoreCell.num 1 },
         { Gene := "TP53", Score := ScoreCell.str "oops" }] =
      Except.error Phen2GeneError.MalformedResultRow :=
  claim_C3_malformed_row_fails_extraction (fun _ => "ENSG1")
    [{ Gene := "BRCA1", Score := ScoreCell.num 1 },
     { Gene := "TP53", Score := ScoreCell.str "oops" }]
    ⟨{ Gene := "TP53", Score := ScoreCell.str "oops" }, by decide, rfl⟩

/-- C4: on a table whose `Score` cells are all numeric, extraction succeeds
and yields exactly one normalized record per input row, in input-row order,
whose score is the row's score rounded to 4 decimal places; the emitted
scores are stable under further rounding (rounding happens at extraction
only), so extraction of the same table is deterministic. -/
theorem claim_C4_extraction_rounds_each_row (updater : String → String)
    (rows : List Phen2GeneRow)
    (h : ∀ row ∈ rows, scoreCellIsNumeric row.Score = true) :
    ∃ results,
      extract_pheval_gene_requirements updater rows = Except.ok results ∧
      results = rows.map (fun row =>
        { gene_symbol := row.Gene, gene_identifier := updater row.Gene,
          score := round4 (scoreCellValue row.Score) }) ∧
      ∀ r ∈ results, round4 r.score = r.score := by
  refine ⟨rows.map (fun row =>
    { gene_symbol := row.Gene, gene_identifier := updater row.Gene,
      score := round4 (scoreCellValue row.Score) }), ?_, rfl, ?_⟩
  · induction rows with
    | nil => rfl
    | cons row rest ih =>
      have hrow := h row (List.mem_cons_self row rest)
      cases hS : row.Score with
      | str s => rw [hS] at hrow; simp [scoreCellIsNumeric] at hrow
      | num q =>
        have htail := ih (fun x hx => h x (List.mem_cons_of_mem row hx))
        unfold extract_pheval_gene_requirements
        simp [find_relevant_score, hS, htail, find_gene_symbol,
              find_ensembl_identifier, scoreCellValue]
  · intro r hr
    rcases List.mem_map.mp hr with ⟨row, _, hrow⟩
    rw [← hrow]
    exact round4_round4 (scoreCellValue row.Score)

/-- Witness for C4 at a concrete two-row numeric table. -/
theorem claim_C4_witness :
    ∃ results,
      extract_pheval_gene_requirements (fun _ => "ENSG2")
          [{ Gene := "BRCA1", Score := ScoreCell.num 0.9123456 },
           { Gene := "EGFR", Score := ScoreCell.num 0.5 }] = Except.ok results ∧
      results = ([{ Gene := "BRCA1", Score := ScoreCell.num 0.9123456 },
                  { Gene := "EGFR", Score := ScoreCell.num 0.5 }] : List Phen2GeneRow).map
        (fun row =>
          { gene_symbol := row.Gene, gene_identifier := "ENSG2",
            score := round4 (scoreCellValue row.Score) }) ∧
      ∀ r ∈ results, round4 r.score = r.score :=
  claim_C4_extraction_rounds_each_row (fun _ => "ENSG2")
    [{ Gene := "BRCA1", Score := ScoreCell.num 0.9123456 },
     { Gene := "EGFR", Score := ScoreCell.num 0.5 }]
    (by decide)

/-- C5: in both local and docker mode the dispatcher selects exactly a batch
file from the batch directory whose name starts with the basename of the
test-data directory; the file it reads and executes is one of the listed
files and carries that prefix. -/
theorem claim_C5_batch_file_selection (files : List String) (testdataName : String) :
    (∀ (a b : ℤ) (t : LocalTrace),
        run_phen2gene_local files testdataName a b = Except.ok t →
        t.batch_file ∈ files ∧ strStartsWith t.batch_file testdataName = true) ∧
    (∀ (contents : String → List String) (t : DockerTrace),
        run_phen2gene_docker files testdataName contents = Except.ok t →
        t.batch_file ∈ files ∧ strStartsWith t.batch_file testdataName = true) := by
  constructor
  · intro a b t h
    unfold run_phen2gene_local at h
    cases hsel : select_batch_file files testdataName with
    | error e => rw [hsel] at h; cases h
    | ok f =>
      rw [hsel] at h
      injection h with h
      rw [← h]
      exact select_batch_file_ok hsel
  · intro contents t h
    unfold run_phen2gene_docker at h
    cases hsel : select_batch_file files testdataName with
    | error e => rw [hsel] at h; cases h
    | ok f =>
      rw [hsel] at h
      injection h with h
      rw [← h]
      exact select_batch_file_ok hsel

/-- Witness for C5: dispatching for `sample_001` among `sample_001.sh` and
`sample_002.sh` picks `sample_001.sh`. -/
theorem claim_C5_witness :
    "sample_001.sh" ∈ ["sample_001.sh", "sample_002.sh"] ∧
      strStartsWith "sample_001.sh" "sample_001" = true :=
  (claim_C5_batch_file_selection ["sample_001.sh", "sample_002.sh"] "sample_001").1
    0 0 { batch_file := "sample_001.sh", activation_returncode := 0, batch_returncode := 0 }
    rfl

/-- C6 (code behaviour at the claim's failing input): `run_phen2gene_local`
calls `subprocess.run` without `check=True` for both the environment
activation and the batch script, so a nonzero batch exit status (here 1) is
discarded and the function still returns normally — the claimed propagation
of a nonzero exit status does not happen; the claim's other half holds: a
failed activation (exit 1) is non-fatal and the batch is still executed. -/
theorem claim_C6_batch_failure_not_propagated :
    run_phen2gene_local ["corpus1.sh"] "corpus1" 0 1 =
      Except.ok { batch_file := "corpus1.sh",
                  activation_returncode := 0, batch_returncode := 1 } ∧
    run_phen2gene_local ["corpus1.sh"] "corpus1" 1 0 =
      Except.ok { batch_file := "corpus1.sh",
                  activation_returncode := 1, batch_returncode := 0 } := by
  constructor <;> rfl

/-- C7: if no entry of the test-data directory listing contains the marker
token "phenopacket", `prepare_phen2gene_commands` fails with
`MissingPhenopacketDirectory` and no command is prepared. -/
theorem claim_C7_missing_phenopacket_directory (testdata_listing : List String)
    (raw cwd : List String)
    (h : ∀ d ∈ testdata_listing, strContains d "phenopacket" = false) :
    prepare_phen2gene_commands testdata_listing raw cwd =
      Except.error Phen2GeneError.MissingPhenopacketDirectory := by
  unfold prepare_phen2gene_commands
  have hfl : testdata_listing.filter (fun d => strContains d "phenopacket") = [] := by
    rw [List.filter_eq_nil_iff]
    intro a ha
    simp [h a ha]
  rw [hfl]

/-- Witness for C7 at a listing with no phenopacket directory. -/
theorem claim_C7_witness :
    prepare_phen2gene_commands ["results", "vcf"] ["data"] ["work"] =
      Except.error Phen2GeneError.MissingPhenopacketDirectory :=
  claim_C7_missing_phenopacket_directory ["results", "vcf"] ["data"] ["work"] (by decide)

/-- C8: batch preparation embeds the raw-results directory as
`os.path.relpath(raw_results_dir)`, a path relative to the current working
directory (the `start` argument of `relpath` defaults to the cwd); for
`".."`-free absolute paths, following that embedded path from the working
directory leads exactly to the results directory. -/
theorem claim_C8_results_dir_relative (testdata_listing : List String)
    (raw cwd : List String) (t : PrepareTrace)
    (hok : prepare_phen2gene_commands testdata_listing raw cwd = Except.ok t)
    (hraw : ∀ c ∈ raw, c ≠ "..") :
    t.results_dir = relpath raw cwd ∧ resolvePath cwd t.results_dir = raw := by
  have h1 : t.results_dir = relpath raw cwd := by
    unfold prepare_phen2gene_commands at hok
    cases hfl : testdata_listing.filter (fun d => strContains d "phenopacket") with
    | nil => rw [hfl] at hok; cases hok
    | cons d ds =>
      rw [hfl] at hok
      injection hok with hok
      rw [← hok]
  refine ⟨h1, ?_⟩
  rw [h1]
  exact relpath_resolve raw cwd hraw

/-- Witness for C8: results directory `/home/user/results` seen from working
directory `/home/user/work` is embedded as `../results`, which resolves back
to the results directory. -/
theorem claim_C8_witness :
    ({ phenopacket_dir := "phenopackets",
       results_dir := ["..", "results"] } : PrepareTrace).results_dir =
        relpath ["home", "user", "results"] ["home", "user", "work"] ∧
      resolvePath ["home", "user", "work"]
        ({ phenopacket_dir := "phenopackets",
           results_dir := ["..", "results"] } : PrepareTrace).results_dir =
        ["home", "user", "results"] :=
  claim_C8_results_dir_relative ["phenopackets"]
    ["home", "user", "results"] ["home", "user", "work"]
    { phenopacket_dir := "phenopackets", results_dir := ["..", "results"] }
    rfl (by decide)

/-- C9: an empty result table (zero data rows) extracts and ranks to an
empty ranked sequence with no error. -/
theorem claim_C9_empty_table_ok (updater : String → String) (sort_order : String) :
    create_pheval_gene_result_from_phen2gene [] updater sort_order = Except.ok [] := by
  unfold create_pheval_gene_result_from_phen2gene extract_pheval_gene_requirements
  unfold create_pheval_result sortResults
  simp [List.insertionSort]

/-- C10: a `RunConfig` environment value other than "docker" and "local"
matches neither branch of `run_phen2gene`, which performs no execution and
returns normally without raising. -/
theorem claim_C10_unknown_environment_noop (config_environment : String)
    (files : List String) (testdataName : String) (contents : String → List String)
    (a b : ℤ)
    (hd : config_environment ≠ "docker") (hl : config_environment ≠ "local") :
    run_phen2gene config_environment files testdataName contents a b = Except.ok [] := by
  unfold run_phen2gene
  rw [if_neg hd, if_neg hl]
  rfl

/-- Witness for C10 at the unrecognised environment "slurm". -/
theorem claim_C10_witness :
    run_phen2gene "slurm" ["corpus.sh"] "corpus" (fun _ => ["cmd"]) 0 0 = Except.ok [] :=
  claim_C10_unknown_environment_noop "slurm" ["corpus.sh"] "corpus" (fun _ => ["cmd"]) 0 0
    (by decide) (by decide)

end Phen2Gene

